import Mathlib

/-!
# Playlist Notes — verification of the annotation/sync core

Shallow embedding of the tag normalization, playlist reducer, note-deletion
queue, union merge, tag-sync debounce scheduler, inline-undo registry,
recent-playlists maintenance and the demo-viewed analytics helper of the
`playlist-notes` repository, together with proofs of the specified
properties.

JavaScript strings are modelled as `List Char` (`JStr`), so that every
string operation used by the code (trim, lowercase, comparison) is a
structurally recursive Lean function that the kernel can evaluate.
-/

namespace PlaylistNotes

/-- Model of a JavaScript string: its list of characters. -/
abbrev JStr := List Char

/-- Convenience conversion from a Lean string literal to its model. -/
def jstr (s : String) : JStr := s.data

/-- `String.prototype.trim()`: strip leading and trailing whitespace. -/
def jsTrim (s : JStr) : JStr :=
  ((s.dropWhile Char.isWhitespace).reverse.dropWhile Char.isWhitespace).reverse

/-- `String.prototype.toLowerCase()` restricted to the ASCII case folding
the tag alphabet needs. -/
def jsToLower (s : JStr) : JStr :=
  s.map Char.toLower

/-! ## Tag normalization

Embedded from `src/features/tags/tagUtils.js` as laid out in
`src/docs/pr-51-post-merge-improvements.md` (Phase 4, `normalizeTag` /
`normalizeTagsList`, and the `api/db/_lib/tagValidation.js` constants
`MAX_TAG_LENGTH`, `MAX_TAGS_PER_TRACK`, `TAG_ALLOWED_RE`).
-/

def MAX_TAG_LENGTH : Nat := 50

def MAX_TAGS_PER_TRACK : Nat := 32

/-- A character matched by `TAG_ALLOWED_RE = /^[a-z0-9\s-]+$/i`:
ASCII alphanumerics, whitespace, or a hyphen. -/
def tagCharAllowed (c : Char) : Bool :=
  c.isAlphanum || c.isWhitespace || c == '-'

/-- `TAG_ALLOWED_RE.test trimmed` for a nonempty trimmed string. -/
def tagAllowed (s : JStr) : Bool :=
  s.all tagCharAllowed

/-- `normalizeTag` from `tagUtils.js`: trim; reject an empty, overlong, or
illegal-character tag; lowercase the survivor.  (The source binds
`trimmed = tag.trim()`; it is inlined here as `jsTrim tag`.) -/
def normalizeTag (tag : JStr) : Option JStr :=
  if jsTrim tag = [] then none
  else if (jsTrim tag).length > MAX_TAG_LENGTH then none
  else if !(tagAllowed (jsTrim tag)) then none
  else some (jsToLower (jsTrim tag))

/-- First-occurrence deduplication (the `seen : Set` loop of
`normalizeTagsList`), with the accumulator of already-seen elements. -/
def dedupFirstAux {α : Type} [DecidableEq α] (seen : List α) : List α → List α
  | [] => []
  | a :: rest =>
    if a ∈ seen then dedupFirstAux seen rest
    else a :: dedupFirstAux (a :: seen) rest

def dedupFirst {α : Type} [DecidableEq α] (l : List α) : List α :=
  dedupFirstAux [] l

/-- `normalizeTagsList` from `tagUtils.js`: normalize each tag, drop the
invalid ones, deduplicate keeping first occurrences, cap at
`MAX_TAGS_PER_TRACK` (the `slice` happens before the `sort`), and sort. -/
def normalizeTagsList (tags : List JStr) : List JStr :=
  ((dedupFirst (tags.filterMap normalizeTag)).take MAX_TAGS_PER_TRACK).insertionSort (· ≤ ·)

/-- Canonical form of a tag list: deduplicated (first occurrences kept) and
sorted.  This is the shared sort/dedup step of the tag pipeline, without
the 32-entry cap. -/
def canonicalTags (l : List JStr) : List JStr :=
  (dedupFirst l).insertionSort (· ≤ ·)

/-! ## Playlist state machine

Modelled from the spec: `playlistReducer`
(`src/features/playlist/playlistReducer.js` is not in the corpus; only its
guard pattern in `src/docs/demo-implementation-review.md` Issue 2 and the
spec section 4.3 describe it).  A pure function `(state, action) → result`;
the read-only guard runs first, before any other validation; warnings and
validation errors are returned on side channels, never thrown (the function
is total).  Tag validation on `ADD_TAG` uses the repository's `normalizeTag`
code embedded above.
-/

/-- The read-only/demo provider marker. -/
def READ_ONLY_PROVIDER : JStr := jstr "demo"

def READ_ONLY_WARNING : JStr := jstr "Cannot edit demo playlist"

structure ImportMeta where
  provider : Option JStr := none
  playlistId : Option JStr := none
deriving DecidableEq

structure Track where
  id : JStr
  title : JStr
  artist : JStr
deriving DecidableEq

structure Note where
  id : JStr
  body : JStr
  timestampMs : Option Nat := none
  timestampEndMs : Option Nat := none
  createdAt : Nat := 0
deriving DecidableEq

/-- Lookup in an association-list map keyed by string (the model of a plain
JS object such as `notesByTrack` / `tagsByTrack`). -/
def getEntry {α : Type} (m : List (JStr × α)) (k : JStr) (dflt : α) : α :=
  match m.find? (fun p => p.1 == k) with
  | some p => p.2
  | none => dflt

/-- Update (or insert) a key in an association-list map. -/
def setEntry {α : Type} (m : List (JStr × α)) (k : JStr) (v : α) : List (JStr × α) :=
  match m with
  | [] => [(k, v)]
  | (k', v') :: rest => if k' == k then (k, v) :: rest else (k', v') :: setEntry rest k v

structure PlaylistState where
  importMeta : ImportMeta
  tracks : List Track
  notesByTrack : List (JStr × List Note)
  tagsByTrack : List (JStr × List JStr)
deriving DecidableEq

inductive PlaylistAction where
  | addNote (trackId : JStr) (note : Note)
  | updateNote (trackId : JStr) (noteId : JStr) (body : JStr)
  | deleteNote (trackId : JStr) (noteId : JStr)
  | restoreNote (trackId : JStr) (note : Note)
  | addTag (trackId : JStr) (tag : JStr)
  | removeTag (trackId : JStr) (tag : JStr)
  | setTracks (tracks : List Track)
  | setProvider (provider : Option JStr)

/-- The mutating actions named by the spec's read-only guard. -/
def isMutating : PlaylistAction → Bool
  | .addNote .. => true
  | .updateNote .. => true
  | .deleteNote .. => true
  | .restoreNote .. => true
  | .addTag .. => true
  | .removeTag .. => true
  | .setTracks .. => false
  | .setProvider .. => false

/-- Result of a dispatch: the next state plus the warning and
validation-error side channels (spec section 7: queue- and guard-level
errors are recorded, never thrown). -/
structure DispatchResult where
  state : PlaylistState
  warnings : List JStr := []
  validationError : Option JStr := none
deriving DecidableEq

/-- `ADD_TAG` handling: validate via `normalizeTag`, reject when the track
would exceed `MAX_TAGS_PER_TRACK`, otherwise store the canonical
(lowercased, deduplicated, sorted) tag set. -/
def applyAddTag (state : PlaylistState) (trackId tag : JStr) : DispatchResult :=
  match normalizeTag tag with
  | none => { state := state, validationError := some (jstr "invalid tag") }
  | some t =>
    let old := getEntry state.tagsByTrack trackId []
    let merged := canonicalTags (t :: old)
    if MAX_TAGS_PER_TRACK < merged.length then
      { state := state, validationError := some (jstr "too many tags for track") }
    else
      { state := { state with tagsByTrack := setEntry state.tagsByTrack trackId merged } }

/-- The pure reducer.  The read-only guard is the first check: when the
active provider is the read-only marker, every mutating action is a no-op
with a warning, before any payload validation happens. -/
def playlistReducer (state : PlaylistState) (action : PlaylistAction) : DispatchResult :=
  if isMutating action && state.importMeta.provider == some READ_ONLY_PROVIDER then
    { state := state, warnings := [READ_ONLY_WARNING] }
  else
    match action with
    | .addNote trackId note =>
        let notes := getEntry state.notesByTrack trackId [] ++ [note]
        { state := { state with notesByTrack := setEntry state.notesByTrack trackId notes } }
    | .updateNote trackId noteId body =>
        let notes := (getEntry state.notesByTrack trackId []).map
          (fun n => if n.id == noteId then { n with body := body } else n)
        { state := { state with notesByTrack := setEntry state.notesByTrack trackId notes } }
    | .deleteNote trackId noteId =>
        let notes := (getEntry state.notesByTrack trackId []).filter (fun n => n.id != noteId)
        { state := { state with notesByTrack := setEntry state.notesByTrack trackId notes } }
    | .restoreNote trackId note =>
        let notes := getEntry state.notesByTrack trackId [] ++ [note]
        { state := { state with notesByTrack := setEntry state.notesByTrack trackId notes } }
    | .addTag trackId tag => applyAddTag state trackId tag
    | .removeTag trackId tag =>
        let tags := (getEntry state.tagsByTrack trackId []).filter (fun t => t != tag)
        { state := { state with tagsByTrack := setEntry state.tagsByTrack trackId tags } }
    | .setTracks tracks => { state := { state with tracks := tracks } }
    | .setProvider p =>
        { state := { state with importMeta := { state.importMeta with provider := p } } }

/-- Sample state for witnesses: an open demo playlist. -/
def demoSampleState : PlaylistState :=
  { importMeta := { provider := some READ_ONLY_PROVIDER },
    tracks := [], notesByTrack := [], tagsByTrack := [] }

/-- Sample state for witnesses: a spotify playlist whose track `t1`
already carries the tag `rock`. -/
def spotifySampleState : PlaylistState :=
  { importMeta := { provider := some (jstr "spotify") },
    tracks := [], notesByTrack := [], tagsByTrack := [(jstr "t1", [jstr "rock"])] }

/-! ## Note-deletion queue

`flushDeleteQueue` is embedded from the enhanced implementation of
`src/features/notes/noteDeleteQueue.js` given in
`src/docs/pr-51-post-merge-improvements.md` Phase 1 (the
`for (const item of queue)` loop with the
`{ deleted, unauthorized, alreadyGone, failed }` counters, the `remaining`
list that is saved back, and the `console.warn` calls).  The server
response for an entry is an oracle `respOf`; a thrown `fetch` error is the
`networkError` constructor.  Warning text keeps the source's wording minus
the interpolated status code.
-/

structure PendingDeletion where
  noteId : JStr
  trackId : JStr
  queuedAt : Nat := 0
deriving DecidableEq

/-- A server response: an HTTP status, or a network error thrown by
`fetch` (the `catch` branch). -/
inductive DeleteResponse where
  | status (code : Nat)
  | networkError
deriving DecidableEq

/-- `response.ok`: status in the 200–299 range. -/
def respOk (code : Nat) : Bool :=
  200 ≤ code && code < 300

structure FlushResult where
  deleted : Nat := 0
  unauthorized : Nat := 0
  alreadyGone : Nat := 0
  failed : Nat := 0
deriving DecidableEq

def unauthorizedWarningMsg (e : PendingDeletion) : JStr :=
  jstr "[noteDeleteQueue] unauthorized deletion for note " ++ e.noteId

def permanentFailureWarningMsg (e : PendingDeletion) : JStr :=
  jstr "[noteDeleteQueue] permanent failure for note " ++ e.noteId

/-- One iteration of the flush loop: thread the accumulated
`(result, remaining, warnings)` through the response branches, in the
source's order (`ok`, `404`, `401/403`, `>= 500`, other; `catch` for a
network error). -/
def flushStep (respOf : PendingDeletion → DeleteResponse)
    (acc : FlushResult × List PendingDeletion × List JStr)
    (item : PendingDeletion) : FlushResult × List PendingDeletion × List JStr :=
  match respOf item with
  | .networkError =>
    ({ acc.1 with failed := acc.1.failed + 1 }, acc.2.1 ++ [item], acc.2.2)
  | .status code =>
    if respOk code then
      ({ acc.1 with deleted := acc.1.deleted + 1 }, acc.2.1, acc.2.2)
    else if code = 404 then
      ({ acc.1 with alreadyGone := acc.1.alreadyGone + 1 }, acc.2.1, acc.2.2)
    else if code = 401 || code = 403 then
      ({ acc.1 with unauthorized := acc.1.unauthorized + 1 }, acc.2.1,
        acc.2.2 ++ [unauthorizedWarningMsg item])
    else if 500 ≤ code then
      ({ acc.1 with failed := acc.1.failed + 1 }, acc.2.1 ++ [item], acc.2.2)
    else
      ({ acc.1 with deleted := acc.1.deleted + 1 }, acc.2.1,
        acc.2.2 ++ [permanentFailureWarningMsg item])

/-- `flushDeleteQueue`: run the loop over the queue; returns the counters,
the `remaining` queue that `saveQueue` persists, and the warnings logged. -/
def flushDeleteQueue (queue : List PendingDeletion)
    (respOf : PendingDeletion → DeleteResponse) :
    FlushResult × List PendingDeletion × List JStr :=
  queue.foldl (flushStep respOf) ({}, [], [])

/-- The five outcome classes of the flush loop's branches. -/
inductive RespClass where
  | success
  | alreadyGone
  | unauthorized
  | retryable
  | permanent
deriving DecidableEq

/-- Classify a response by the branch of the loop that handles it. -/
def classifyResponse : DeleteResponse → RespClass
  | .networkError => .retryable
  | .status code =>
    if respOk code then .success
    else if code = 404 then .alreadyGone
    else if code = 401 || code = 403 then .unauthorized
    else if 500 ≤ code then .retryable
    else .permanent

/-- The warnings one entry contributes. -/
def warnOf (respOf : PendingDeletion → DeleteResponse) (e : PendingDeletion) : List JStr :=
  match classifyResponse (respOf e) with
  | .unauthorized => [unauthorizedWarningMsg e]
  | .permanent => [permanentFailureWarningMsg e]
  | _ => []

/-- A sample pending deletion for witness/counterexample inputs. -/
def sampleDeletion : PendingDeletion :=
  { noteId := jstr "n1", trackId := jstr "t1" }

/-! ## Note-deletion queue bound

Modelled from the spec: the enqueue path of
`src/features/notes/noteDeleteQueue.js` is not in the corpus; the spec
(section 4.4 and the Queue bound property, with the 100-item limit named in
`src/docs/pr-51-post-merge-improvements.md`, "Add queue size limit
(100 items), truncate oldest") describes an append-only queue with a fixed
maximum where the oldest entries are dropped with a warning on overflow.
-/

def MAX_PENDING_DELETIONS : Nat := 100

def queueOverflowWarning : JStr :=
  jstr "[noteDeleteQueue] queue overflow - dropping oldest entries"

/-- Enqueue one deletion: append, then truncate from the front with a
warning when the bound is exceeded. -/
def queueNoteDeletion (q : List PendingDeletion) (e : PendingDeletion) :
    List PendingDeletion × List JStr :=
  if MAX_PENDING_DELETIONS < (q ++ [e]).length then
    ((q ++ [e]).drop ((q ++ [e]).length - MAX_PENDING_DELETIONS), [queueOverflowWarning])
  else
    (q ++ [e], [])

/-! ## Union merge

Modelled from the spec: the merge code
(`src/utils/notesTagsData.js` / `src/features/playlist/PlaylistProvider.jsx`)
is not in the corpus.  Spec section 4.4: notes merge by identity (`id`) —
remote-only notes are added, local-only unsynced notes are preserved;
near-duplicate notes (same track + body + timestamp, created independently)
are deduplicated by content signature before merge; tags merge by per-track
set union, kept canonical.  The timestamp "window" is modelled as exact
timestamp equality, matching the dedup test in
`src/docs/pr-51-post-merge-improvements.md` ("at timestamp T (exact
same)").
-/

/-- Per-track slice of local or remote annotation state. -/
structure SyncSnapshot where
  notesByTrack : JStr → List Note
  tagsByTrack : JStr → List JStr

/-- Content signature of a note within one track: body plus timestamp. -/
def noteSignature (n : Note) : JStr × Option Nat :=
  (n.body, n.timestampMs)

/-- Deduplicate a remote row list by content signature, keeping the first
of each signature. -/
def dedupBySigAux (seen : List (JStr × Option Nat)) : List Note → List Note
  | [] => []
  | n :: rest =>
    if noteSignature n ∈ seen then dedupBySigAux seen rest
    else n :: dedupBySigAux (noteSignature n :: seen) rest

def dedupBySignature (l : List Note) : List Note :=
  dedupBySigAux [] l

def hasNoteId (l : List Note) (i : JStr) : Bool :=
  l.any (fun n => n.id == i)

def hasSignature (l : List Note) (sig : JStr × Option Nat) : Bool :=
  l.any (fun n => noteSignature n == sig)

/-- A remote row is added only when no local note shares its id and no
local note shares its content signature. -/
def noteKeepFilter (l : List Note) (n : Note) : Bool :=
  !(hasNoteId l n.id) && !(hasSignature l (noteSignature n))

/-- Per-track note merge: keep every local note; append the remote rows
(signature-deduplicated) that are new by id and by signature. -/
def mergeNotes (l r : List Note) : List Note :=
  l ++ (dedupBySignature r).filter (noteKeepFilter l)

/-- Per-track tag merge: set union in canonical (deduplicated, sorted)
form — never a replacement of one side. -/
def mergeTrackTags (l r : List JStr) : List JStr :=
  canonicalTags (l ++ r)

/-- Union-merge a remote snapshot into the local state, per track. -/
def mergeRemote (a b : SyncSnapshot) : SyncSnapshot :=
  { notesByTrack := fun track => mergeNotes (a.notesByTrack track) (b.notesByTrack track),
    tagsByTrack := fun track => mergeTrackTags (a.tagsByTrack track) (b.tagsByTrack track) }

/-! ## Debounced tag sync scheduler

Modelled from the spec: `createTagSyncScheduler`
(`src/features/tags/tagSyncQueue.js`) is not in the corpus.  Spec section
4.4: a change to a track's tags (a) resets the fixed 350 ms quiet-period
timer for that track and (b) replaces the queued payload with the current
full tag set; on quiet-period elapse exactly one outbound upsert call fires
with the latest full set.  The model is the scheduler of one track (timers
of distinct tracks are independent); time is in virtual milliseconds.
-/

def QUIET_PERIOD_MS : Nat := 350

/-- Scheduler state for one track: the pending payload with its deadline,
and the outbound upsert calls already fired (fire time, full tag set). -/
structure DebounceState where
  pending : Option (Nat × List JStr) := none
  calls : List (Nat × List JStr) := []
deriving DecidableEq

/-- The timer callback: fire the pending task, if any. -/
def firePending (s : DebounceState) : DebounceState :=
  match s.pending with
  | some d => { pending := none, calls := s.calls ++ [d] }
  | none => s

/-- Advance virtual time to `t`: a pending timer whose deadline has passed
fires. -/
def advanceTo (s : DebounceState) (t : Nat) : DebounceState :=
  match s.pending with
  | some d => if d.1 ≤ t then firePending s else s
  | none => s

/-- A tag edit at time `t` with the full new tag set: any due timer has
already fired; the pending task is cancelled and replaced by the new
payload with a fresh quiet-period deadline. -/
def recordEdit (s : DebounceState) (t : Nat) (tags : List JStr) : DebounceState :=
  { advanceTo s t with pending := some (t + QUIET_PERIOD_MS, tags) }

/-- Process a timeline of edits. -/
def runEdits (s : DebounceState) (edits : List (Nat × List JStr)) : DebounceState :=
  edits.foldl (fun st e => recordEdit st e.1 e.2) s

/-- Let the last quiet period elapse. -/
def settle (s : DebounceState) : DebounceState :=
  firePending s

/-- Starting after an edit at time `t`, every following edit happens
strictly later and strictly before the running quiet-period deadline. -/
def gapsOk : Nat → List (Nat × List JStr) → Bool
  | _, [] => true
  | t, e :: rest => (decide (t < e.1) && decide (e.1 < t + QUIET_PERIOD_MS)) && gapsOk e.1 rest

/-- The last edit of a nonempty timeline. -/
def lastEdit (e : Nat × List JStr) : List (Nat × List JStr) → Nat × List JStr
  | [] => e
  | f :: rest => lastEdit f rest

/-! ## Inline undo registry

Modelled from the spec: `useInlineUndo`
(`src/features/undo/useInlineUndo.js`) is not in the corpus.  Spec section
4.5: `scheduleUndo(id, meta)` registers a 10-minute timer, replacing any
existing timer for the same id; `undo(id)` cancels the timer and returns
the meta, and is an idempotent no-op when already undone or expired; on
expiry the `onExpire` callback fires once (recorded in `expiredIds`) and
the entry is removed.  Time is virtual; `expireDue` models due timers
firing.
-/

def UNDO_TIMEOUT_MS : Nat := 600000

/-- Undo registry: pending entries `(id, meta, expiresAt)` and the ids for
which the `onExpire` callback has fired, in firing order. -/
structure UndoState (α : Type) where
  entries : List (JStr × α × Nat) := []
  expiredIds : List JStr := []

/-- Fire every due timer at time `now`: due entries are removed and their
`onExpire` callbacks fire once each. -/
def expireDue {α : Type} (s : UndoState α) (now : Nat) : UndoState α :=
  { entries := s.entries.filter (fun e => decide (now < e.2.2)),
    expiredIds := s.expiredIds ++
      (s.entries.filter (fun e => decide (e.2.2 ≤ now))).map (fun e => e.1) }

/-- `scheduleUndo(id, meta)` at time `now`: a fresh 10-minute entry
replaces any existing entry for the same id. -/
def scheduleUndo {α : Type} (s : UndoState α) (now : Nat) (id : JStr) (meta : α) :
    UndoState α :=
  { expireDue s now with entries :=
      (id, meta, now + UNDO_TIMEOUT_MS) :: (expireDue s now).entries.filter (fun e => e.1 != id) }

/-- `undo(id)` at time `now`: cancel the id's timer and return its meta;
return `none` when no live entry exists. -/
def undo {α : Type} (s : UndoState α) (now : Nat) (id : JStr) : UndoState α × Option α :=
  match (expireDue s now).entries.find? (fun e => e.1 == id) with
  | some e =>
    ({ expireDue s now with entries := (expireDue s now).entries.filter (fun e => e.1 != id) },
      some e.2.1)
  | none => (expireDue s now, none)

/-! ## Recent playlists

The `createRecentCandidate` demo guard is embedded from
`src/docs/demo-implementation-review.md` Issue 3 (early `null` returns for
a malformed meta and for `provider === 'demo'`).  The upsert/limit behavior
is modelled from the spec: `recentPlaylists` holds at most 8 entries,
newest first, deduplicated by `(provider, playlistId)`
(`src/utils/storage.js` `upsertRecent`/`removeRecent` are not in the
corpus).
-/

structure RecentEntry where
  provider : JStr
  playlistId : JStr
  title : JStr := []
deriving DecidableEq

def MAX_RECENT_PLAYLISTS : Nat := 8

/-- `createRecentCandidate`: no candidate without provider and playlist id,
and never one for the demo provider. -/
def createRecentCandidate (meta : ImportMeta) (title : JStr) : Option RecentEntry :=
  match meta.provider, meta.playlistId with
  | some p, some pid =>
    if p == READ_ONLY_PROVIDER then none
    else some { provider := p, playlistId := pid, title := title }
  | _, _ => none

def sameRecentKey (a b : RecentEntry) : Bool :=
  a.provider == b.provider && a.playlistId == b.playlistId

/-- `upsertRecent`: newest first, deduplicated by `(provider, playlistId)`,
truncated to the maximum. -/
def upsertRecent (l : List RecentEntry) (cand : RecentEntry) : List RecentEntry :=
  (cand :: l.filter (fun e => !(sameRecentKey e cand))).take MAX_RECENT_PLAYLISTS

def removeRecent (l : List RecentEntry) (provider playlistId : JStr) : List RecentEntry :=
  l.filter (fun e => !(e.provider == provider && e.playlistId == playlistId))

/-- Sample entry and meta for the C9 witness. -/
def sampleRecentEntry : RecentEntry :=
  { provider := jstr "spotify", playlistId := jstr "p1", title := jstr "t" }

def sampleRecentMeta : ImportMeta :=
  { provider := some (jstr "spotify"), playlistId := some (jstr "p1") }

/-- The persisted `recentPlaylists` lists reachable through the recents
API from the empty initial list: upserting a created candidate, or
removing an entry. -/
inductive ReachableRecents : List RecentEntry → Prop
  | init : ReachableRecents []
  | upsert {l meta title cand} : ReachableRecents l →
      createRecentCandidate meta title = some cand →
      ReachableRecents (upsertRecent l cand)
  | remove {l provider playlistId} : ReachableRecents l →
      ReachableRecents (removeRecent l provider playlistId)

/-! ## Demo-viewed analytics flag

Embedded from `src/src/data/demoPlaylist.js` (`hasDemoBeenViewed`,
`DEMO_VIEWED_KEY`).  The browser environment is modelled explicitly:
whether `window` is defined, whether `window.localStorage` is truthy,
whether touching storage throws, and the stored key-value content.  The
source's `try/catch` is an `Except` computation whose error is caught.
-/

def DEMO_VIEWED_KEY : JStr := jstr "sta:demo-viewed"

structure BrowserEnv where
  windowDefined : Bool
  localStorageTruthy : Bool
  storageThrows : Bool
  store : JStr → Option JStr

/-- The `try` block of `hasDemoBeenViewed`:
`typeof window !== 'undefined' && window.localStorage` guards the read
(touching storage may throw); when the guard fails, control falls through
to the `return false` after the block. -/
def hasDemoBeenViewedTry (env : BrowserEnv) : Except Unit Bool :=
  if env.windowDefined then
    if env.storageThrows then .error ()
    else if env.localStorageTruthy then
      .ok (env.store DEMO_VIEWED_KEY == some (jstr "true"))
    else .ok false
  else .ok false

/-- `hasDemoBeenViewed`: the `catch` swallows any storage error and the
function returns `false` — it never propagates an exception. -/
def hasDemoBeenViewed (env : BrowserEnv) : Bool :=
  match hasDemoBeenViewedTry env with
  | .ok b => b
  | .error _ => false

/-! ### Lemmas about the canonical form -/

theorem mem_dedupFirstAux {α : Type} [DecidableEq α] (a : α) :
    ∀ (l seen : List α), a ∈ dedupFirstAux seen l ↔ (a ∈ l ∧ a ∉ seen) := by
  intro l
  induction l with
  | nil => intro seen; simp [dedupFirstAux]
  | cons b rest ih =>
    intro seen
    by_cases hb : b ∈ seen
    · rw [dedupFirstAux, if_pos hb]
      constructor
      · intro h
        obtain ⟨hr, hs⟩ := (ih seen).mp h
        exact ⟨List.mem_cons_of_mem _ hr, hs⟩
      · rintro ⟨hr, hs⟩
        rcases List.mem_cons.mp hr with h | h
        · subst h; exact absurd hb hs
        · exact (ih seen).mpr ⟨h, hs⟩
    · rw [dedupFirstAux, if_neg hb]
      constructor
      · intro h
        rcases List.mem_cons.mp h with h | h
        · subst h; exact ⟨List.mem_cons_self _ _, hb⟩
        · obtain ⟨hr, hs⟩ := (ih (b :: seen)).mp h
          exact ⟨List.mem_cons_of_mem _ hr,
            fun hmem => hs (List.mem_cons_of_mem _ hmem)⟩
      · rintro ⟨hr, hs⟩
        rcases List.mem_cons.mp hr with h | h
        · subst h; exact List.mem_cons_self _ _
        · by_cases hab : a = b
          · subst hab; exact List.mem_cons_self _ _
          · refine List.mem_cons_of_mem _ ((ih (b :: seen)).mpr ⟨h, ?_⟩)
            intro hmem
            rcases List.mem_cons.mp hmem with h' | h'
            · exact hab h'
            · exact hs h'

theorem mem_dedupFirst {α : Type} [DecidableEq α] (a : α) (l : List α) :
    a ∈ dedupFirst l ↔ a ∈ l := by
  simp [dedupFirst, mem_dedupFirstAux]

theorem nodup_dedupFirstAux {α : Type} [DecidableEq α] :
    ∀ (l seen : List α), (dedupFirstAux seen l).Nodup := by
  intro l
  induction l with
  | nil => intro seen; simp [dedupFirstAux]
  | cons b rest ih =>
    intro seen
    by_cases hb : b ∈ seen
    · simpa [dedupFirstAux, if_pos hb] using ih seen
    · simp only [dedupFirstAux, if_neg hb]
      refine List.nodup_cons.mpr ⟨?_, ih (b :: seen)⟩
      intro hmem
      exact ((mem_dedupFirstAux b rest (b :: seen)).mp hmem).2 (List.mem_cons_self b seen)

theorem nodup_dedupFirst {α : Type} [DecidableEq α] (l : List α) :
    (dedupFirst l).Nodup :=
  nodup_dedupFirstAux l []

theorem mem_canonicalTags (a : JStr) (l : List JStr) :
    a ∈ canonicalTags l ↔ a ∈ l := by
  unfold canonicalTags
  rw [(List.perm_insertionSort (· ≤ ·) (dedupFirst l)).mem_iff]
  exact mem_dedupFirst a l

theorem nodup_canonicalTags (l : List JStr) : (canonicalTags l).Nodup :=
  ((List.perm_insertionSort (· ≤ ·) (dedupFirst l)).nodup_iff).mpr (nodup_dedupFirst l)

theorem sorted_canonicalTags (l : List JStr) :
    (canonicalTags l).Sorted (· ≤ ·) :=
  List.sorted_insertionSort (· ≤ ·) (dedupFirst l)

/-- Two sorted duplicate-free tag lists with the same members are equal. -/
theorem canonical_ext {l₁ l₂ : List JStr}
    (h₁s : l₁.Sorted (· ≤ ·)) (h₂s : l₂.Sorted (· ≤ ·))
    (h₁n : l₁.Nodup) (h₂n : l₂.Nodup)
    (hmem : ∀ a, a ∈ l₁ ↔ a ∈ l₂) : l₁ = l₂ :=
  List.eq_of_perm_of_sorted ((List.perm_ext_iff_of_nodup h₁n h₂n).mpr hmem) h₁s h₂s

/-- `canonicalTags` only depends on membership. -/
theorem canonicalTags_congr {l₁ l₂ : List JStr}
    (hmem : ∀ a, a ∈ l₁ ↔ a ∈ l₂) : canonicalTags l₁ = canonicalTags l₂ :=
  canonical_ext (sorted_canonicalTags l₁) (sorted_canonicalTags l₂)
    (nodup_canonicalTags l₁) (nodup_canonicalTags l₂)
    (fun a => by rw [mem_canonicalTags, mem_canonicalTags]; exact hmem a)

/-! ### Association-list lemmas -/

theorem getEntry_setEntry_self {α : Type} (m : List (JStr × α)) (k : JStr) (v dflt : α) :
    getEntry (setEntry m k v) k dflt = v := by
  induction m with
  | nil => simp [setEntry, getEntry, List.find?]
  | cons hd rest ih =>
    rcases hd with ⟨k', v'⟩
    by_cases h : k' == k
    · simp [setEntry, h, getEntry, List.find?]
    · simp only [setEntry, h, if_false, Bool.false_eq_true]
      simpa [getEntry, List.find?, h] using ih

/-! ### `normalizeTag` characterization -/

theorem normalizeTag_eq_none_iff (tag : JStr) :
    normalizeTag tag = none ↔
      (jsTrim tag = [] ∨ MAX_TAG_LENGTH < (jsTrim tag).length ∨
        tagAllowed (jsTrim tag) = false) := by
  unfold normalizeTag
  split_ifs with h1 h2 h3
  · simp [h1]
  · simp [h2]
  · rw [Bool.not_eq_true'] at h3
    simp [h3]
  · rw [Bool.not_eq_true'] at h3
    simp only [Bool.not_eq_false] at h3
    simp [h1, h2, h3]

theorem normalizeTag_eq_some {tag t : JStr} (h : normalizeTag tag = some t) :
    t = jsToLower (jsTrim tag) := by
  unfold normalizeTag at h
  split_ifs at h
  exact (Option.some.inj h).symm

/-! ### C1 — read-only guard -/

/-- **C1.**  For every state whose `importMeta.provider` equals the
read-only marker and every mutating action (`ADD_NOTE`, `UPDATE_NOTE`,
`DELETE_NOTE`, `RESTORE_NOTE`, `ADD_TAG`, `REMOVE_TAG`), dispatch returns
the state unchanged with exactly the read-only warning on the warning side
channel and no validation error — so the guard fires before any other
validation of the action, and nothing is thrown (the reducer is total). -/
theorem readonly_guard_is_noop (s : PlaylistState) (a : PlaylistAction)
    (hro : s.importMeta.provider = some READ_ONLY_PROVIDER)
    (hmut : isMutating a = true) :
    playlistReducer s a =
      { state := s, warnings := [READ_ONLY_WARNING], validationError := none } := by
  unfold playlistReducer
  rw [hro, hmut]
  simp

/-- Witness for C1: a demo-provider state with an `ADD_TAG` action whose
tag is invalid (empty), showing the guard runs before tag validation. -/
theorem readonly_guard_is_noop_witness :
    playlistReducer demoSampleState (.addTag (jstr "t1") (jstr "")) =
      { state := demoSampleState, warnings := [READ_ONLY_WARNING], validationError := none } :=
  readonly_guard_is_noop _ _ (by decide) (by decide)

/-! ### C6 — `ADD_TAG` validation and canonical result -/

/-- **C6.**  For a non-read-only state, `ADD_TAG` with a tag that is empty
after trimming, longer than 50 characters, or containing a character other
than alphanumerics, whitespace and hyphens is a no-op that reports a
validation error; so is a tag that would push the track past 32 tags.
Otherwise the resulting tag set is the canonical form: the lowercased
trimmed tag joined with the previous tags, deduplicated and sorted. -/
theorem addTag_validation_and_canonical (s : PlaylistState) (trackId tag : JStr)
    (hro : s.importMeta.provider ≠ some READ_ONLY_PROVIDER) :
    ((jsTrim tag = [] ∨ MAX_TAG_LENGTH < (jsTrim tag).length ∨
        tagAllowed (jsTrim tag) = false) →
      (playlistReducer s (.addTag trackId tag)).state = s ∧
      (playlistReducer s (.addTag trackId tag)).validationError.isSome = true) ∧
    (∀ t, normalizeTag tag = some t →
      MAX_TAGS_PER_TRACK < (canonicalTags (t :: getEntry s.tagsByTrack trackId [])).length →
      (playlistReducer s (.addTag trackId tag)).state = s ∧
      (playlistReducer s (.addTag trackId tag)).validationError.isSome = true) ∧
    (∀ t, normalizeTag tag = some t →
      (canonicalTags (t :: getEntry s.tagsByTrack trackId [])).length ≤ MAX_TAGS_PER_TRACK →
      (playlistReducer s (.addTag trackId tag)).validationError = none ∧
      getEntry (playlistReducer s (.addTag trackId tag)).state.tagsByTrack trackId [] =
        canonicalTags (t :: getEntry s.tagsByTrack trackId []) ∧
      (getEntry (playlistReducer s (.addTag trackId tag)).state.tagsByTrack trackId []).Sorted
        (· ≤ ·) ∧
      (getEntry (playlistReducer s (.addTag trackId tag)).state.tagsByTrack trackId []).Nodup ∧
      (∀ u, u ∈ getEntry (playlistReducer s (.addTag trackId tag)).state.tagsByTrack trackId [] ↔
        (u ∈ getEntry s.tagsByTrack trackId [] ∨ u = jsToLower (jsTrim tag)))) := by
  have hbeq : (s.importMeta.provider == some READ_ONLY_PROVIDER) = false :=
    beq_eq_false_iff_ne.mpr hro
  refine ⟨?_, ?_, ?_⟩
  · intro hbad
    have hnone : normalizeTag tag = none := (normalizeTag_eq_none_iff tag).mpr hbad
    simp [playlistReducer, hbeq, applyAddTag, hnone]
  · intro t ht hover
    simp [playlistReducer, hbeq, applyAddTag, ht, if_pos hover]
  · intro t ht hle
    have hnotover : ¬ MAX_TAGS_PER_TRACK <
        (canonicalTags (t :: getEntry s.tagsByTrack trackId [])).length :=
      Nat.not_lt.mpr hle
    have hred : (playlistReducer s (.addTag trackId tag)).state.tagsByTrack =
        setEntry s.tagsByTrack trackId
          (canonicalTags (t :: getEntry s.tagsByTrack trackId [])) := by
      simp [playlistReducer, hbeq, applyAddTag, ht, if_neg hnotover]
    have hget : getEntry (playlistReducer s (.addTag trackId tag)).state.tagsByTrack trackId [] =
        canonicalTags (t :: getEntry s.tagsByTrack trackId []) := by
      rw [hred, getEntry_setEntry_self]
    refine ⟨?_, hget, ?_, ?_, ?_⟩
    · simp [playlistReducer, hbeq, applyAddTag, ht, if_neg hnotover]
    · rw [hget]; exact sorted_canonicalTags _
    · rw [hget]; exact nodup_canonicalTags _
    · intro u
      rw [hget, mem_canonicalTags, List.mem_cons]
      have hlow : t = jsToLower (jsTrim tag) := normalizeTag_eq_some ht
      constructor
      · rintro (h | h)
        · exact Or.inr (h.trans hlow)
        · exact Or.inl h
      · rintro (h | h)
        · exact Or.inr h
        · exact Or.inl (h.trans hlow.symm)

/-- Witness for C6: adding `"  JAZZ "` to a spotify-provider state whose
track `t1` already has tag `rock` stores the canonical set
`[jazz, rock]`. -/
theorem addTag_validation_and_canonical_witness :
    getEntry (playlistReducer spotifySampleState
        (.addTag (jstr "t1") (jstr "  JAZZ "))).state.tagsByTrack (jstr "t1") [] =
      [jstr "jazz", jstr "rock"] := by
  have h := addTag_validation_and_canonical spotifySampleState
    (jstr "t1") (jstr "  JAZZ ") (by decide)
  have h3 := h.2.2 (jstr "jazz") (by decide) (by decide)
  rw [h3.2.1]
  decide

/-! ### Note-deletion queue flush lemmas (C2) -/

/-- The flush loop's branches, recast through `classifyResponse`. -/
theorem flushStep_eq (respOf : PendingDeletion → DeleteResponse)
    (acc : FlushResult × List PendingDeletion × List JStr) (item : PendingDeletion) :
    flushStep respOf acc item =
      match classifyResponse (respOf item) with
      | .success => ({ acc.1 with deleted := acc.1.deleted + 1 }, acc.2.1, acc.2.2)
      | .alreadyGone => ({ acc.1 with alreadyGone := acc.1.alreadyGone + 1 }, acc.2.1, acc.2.2)
      | .unauthorized => ({ acc.1 with unauthorized := acc.1.unauthorized + 1 }, acc.2.1,
          acc.2.2 ++ [unauthorizedWarningMsg item])
      | .retryable => ({ acc.1 with failed := acc.1.failed + 1 }, acc.2.1 ++ [item], acc.2.2)
      | .permanent => ({ acc.1 with deleted := acc.1.deleted + 1 }, acc.2.1,
          acc.2.2 ++ [permanentFailureWarningMsg item]) := by
  cases h : respOf item with
  | networkError => simp [flushStep, classifyResponse, h]
  | status code =>
    simp only [flushStep, classifyResponse, h]
    split_ifs <;> rfl

/-- Closed form of the flush loop from an arbitrary accumulator. -/
theorem flush_foldl_spec (respOf : PendingDeletion → DeleteResponse) :
    ∀ (queue : List PendingDeletion) (res : FlushResult) (rem : List PendingDeletion)
      (ws : List JStr),
      List.foldl (flushStep respOf) (res, rem, ws) queue =
        ({ deleted := res.deleted + queue.countP (fun e =>
              classifyResponse (respOf e) == .success ||
                classifyResponse (respOf e) == .permanent),
           unauthorized := res.unauthorized + queue.countP (fun e =>
              classifyResponse (respOf e) == .unauthorized),
           alreadyGone := res.alreadyGone + queue.countP (fun e =>
              classifyResponse (respOf e) == .alreadyGone),
           failed := res.failed + queue.countP (fun e =>
              classifyResponse (respOf e) == .retryable) },
         rem ++ queue.filter (fun e => classifyResponse (respOf e) == .retryable),
         ws ++ (queue.map (warnOf respOf)).flatten) := by
  intro queue
  induction queue with
  | nil => intro res rem ws; simp
  | cons e rest ih =>
    intro res rem ws
    rw [List.foldl_cons, flushStep_eq]
    cases hc : classifyResponse (respOf e) <;>
      simp [ih, hc, List.countP_cons, List.filter_cons, warnOf, Nat.add_assoc,
        Nat.add_comm 1]

/-! ### C2 — flush outcome classification -/

/-- **C2 counterexample.**  A lone entry answered with status `400` (an
"other 4xx") is removed from the queue and counted in the `deleted`
counter — the counters are identical to those of a successful `200`
deletion, and the `failed` counter stays `0`.  So an "other 4xx" is not
counted as a permanent failure separately from completed deletions, contra
the claim. -/
theorem flush_other4xx_counted_with_deletions :
    (flushDeleteQueue [sampleDeletion] (fun _ => .status 400)).1.deleted = 1 ∧
    (flushDeleteQueue [sampleDeletion] (fun _ => .status 400)).1.failed = 0 ∧
    (flushDeleteQueue [sampleDeletion] (fun _ => .status 400)).1.unauthorized = 0 ∧
    (flushDeleteQueue [sampleDeletion] (fun _ => .status 400)).1.alreadyGone = 0 ∧
    (flushDeleteQueue [sampleDeletion] (fun _ => .status 400)).2.1 = [] ∧
    (flushDeleteQueue [sampleDeletion] (fun _ => .status 200)).1 =
      (flushDeleteQueue [sampleDeletion] (fun _ => .status 400)).1 := by
  decide

/-- **C2 (amended).**  A flush classifies every entry by its response:
success (2xx) → removed, `deleted` counter; 404 → removed, `alreadyGone`
counter; 401/403 → removed, `unauthorized` counter, warning logged, never
retried; 5xx or network error → kept in the queue, `failed` (retryable)
counter; any other status (other 4xx) → removed, warning logged, never
retried, and counted in the `deleted` counter together with successful
deletions (there is no separate permanent-failure counter). -/
theorem flushDeleteQueue_classification (queue : List PendingDeletion)
    (respOf : PendingDeletion → DeleteResponse) :
    (flushDeleteQueue queue respOf).2.1 =
      queue.filter (fun e => classifyResponse (respOf e) == .retryable) ∧
    (flushDeleteQueue queue respOf).1.deleted =
      queue.countP (fun e => classifyResponse (respOf e) == .success ||
        classifyResponse (respOf e) == .permanent) ∧
    (flushDeleteQueue queue respOf).1.alreadyGone =
      queue.countP (fun e => classifyResponse (respOf e) == .alreadyGone) ∧
    (flushDeleteQueue queue respOf).1.unauthorized =
      queue.countP (fun e => classifyResponse (respOf e) == .unauthorized) ∧
    (flushDeleteQueue queue respOf).1.failed =
      queue.countP (fun e => classifyResponse (respOf e) == .retryable) ∧
    (flushDeleteQueue queue respOf).2.2 = (queue.map (warnOf respOf)).flatten := by
  unfold flushDeleteQueue
  rw [flush_foldl_spec]
  simp

/-! ### C5 — deletion queue bound -/

theorem queueNoteDeletion_length_le (q : List PendingDeletion) (e : PendingDeletion)
    (h : q.length ≤ MAX_PENDING_DELETIONS) :
    (queueNoteDeletion q e).1.length ≤ MAX_PENDING_DELETIONS := by
  unfold queueNoteDeletion
  split_ifs with hov
  · simp only [List.length_drop]
    omega
  · show (q ++ [e]).length ≤ MAX_PENDING_DELETIONS
    omega

/-- **C5.**  Starting from any in-bound queue, no sequence of enqueues ever
pushes the persisted deletion queue past `MAX_PENDING_DELETIONS`; and an
enqueue onto a full queue drops the oldest entry first and emits the
overflow warning. -/
theorem deletion_queue_bound (q0 : List PendingDeletion) (es : List PendingDeletion)
    (h0 : q0.length ≤ MAX_PENDING_DELETIONS) :
    (es.foldl (fun q e => (queueNoteDeletion q e).1) q0).length ≤ MAX_PENDING_DELETIONS ∧
    (∀ q e, q.length = MAX_PENDING_DELETIONS →
      queueNoteDeletion q e = (q.drop 1 ++ [e], [queueOverflowWarning])) := by
  constructor
  · induction es generalizing q0 with
    | nil => simpa using h0
    | cons e rest ih =>
      rw [List.foldl_cons]
      exact ih _ (queueNoteDeletion_length_le q0 e h0)
  · intro q e hlen
    unfold queueNoteDeletion
    have hov : MAX_PENDING_DELETIONS < (q ++ [e]).length := by
      simp only [List.length_append, List.length_singleton, hlen]
      omega
    rw [if_pos hov]
    have hone : (q ++ [e]).length - MAX_PENDING_DELETIONS = 1 := by
      simp only [List.length_append, List.length_singleton, hlen]
      omega
    rw [hone, List.drop_append_of_le_length (by rw [hlen]; decide)]

/-- Witness for C5: three enqueues starting from the empty queue stay in
bound. -/
theorem deletion_queue_bound_witness :
    ((List.replicate 3 sampleDeletion).foldl
      (fun q e => (queueNoteDeletion q e).1) []).length ≤ MAX_PENDING_DELETIONS :=
  (deletion_queue_bound [] (List.replicate 3 sampleDeletion) (by decide)).1

/-! ### Union merge lemmas (C3, C4) -/

theorem hasNoteId_append (a b : List Note) (i : JStr) :
    hasNoteId (a ++ b) i = (hasNoteId a i || hasNoteId b i) :=
  List.any_append

theorem hasSignature_append (a b : List Note) (sig : JStr × Option Nat) :
    hasSignature (a ++ b) sig = (hasSignature a sig || hasSignature b sig) :=
  List.any_append

/-- Re-merging the same remote rows adds nothing: every
signature-deduplicated remote row is already represented in the first
merge's result, by id or by signature. -/
theorem noteKeepFilter_after_merge (l r : List Note) :
    ∀ n ∈ dedupBySignature r, noteKeepFilter (mergeNotes l r) n = false := by
  intro n hn
  unfold noteKeepFilter
  by_cases h1 : hasNoteId l n.id = true
  · have hall : hasNoteId (mergeNotes l r) n.id = true := by
      unfold mergeNotes
      rw [hasNoteId_append, h1, Bool.true_or]
    rw [hall]
    simp
  · by_cases h2 : hasSignature l (noteSignature n) = true
    · have hall : hasSignature (mergeNotes l r) (noteSignature n) = true := by
        unfold mergeNotes
        rw [hasSignature_append, h2, Bool.true_or]
      rw [hall]
      simp
    · have hkeep : noteKeepFilter l n = true := by
        unfold noteKeepFilter
        rw [Bool.not_eq_true] at h1 h2
        rw [h1, h2]
        rfl
      have hmem : n ∈ (dedupBySignature r).filter (noteKeepFilter l) :=
        List.mem_filter.mpr ⟨hn, hkeep⟩
      have hkept : hasNoteId ((dedupBySignature r).filter (noteKeepFilter l)) n.id = true := by
        unfold hasNoteId
        exact List.any_eq_true.mpr ⟨n, hmem, by simp⟩
      have hall : hasNoteId (mergeNotes l r) n.id = true := by
        unfold mergeNotes
        rw [hasNoteId_append, hkept, Bool.or_true]
      rw [hall]
      simp

theorem mergeNotes_idem (l r : List Note) :
    mergeNotes (mergeNotes l r) r = mergeNotes l r := by
  have hfil : (dedupBySignature r).filter (noteKeepFilter (mergeNotes l r)) = [] := by
    rw [List.filter_eq_nil_iff]
    intro n hn
    simp [noteKeepFilter_after_merge l r n hn]
  calc mergeNotes (mergeNotes l r) r
      = mergeNotes l r ++ (dedupBySignature r).filter (noteKeepFilter (mergeNotes l r)) := rfl
    _ = mergeNotes l r ++ [] := by rw [hfil]
    _ = mergeNotes l r := List.append_nil _

theorem mergeTrackTags_idem (l r : List JStr) :
    mergeTrackTags (mergeTrackTags l r) r = mergeTrackTags l r := by
  unfold mergeTrackTags
  apply canonicalTags_congr
  intro a
  simp only [List.mem_append, mem_canonicalTags]
  tauto

/-! ### C3 — tag merge is a set union -/

/-- **C3.**  For every track and every pair of local and remote states, the
merged tag set is exactly the set union of the two sides (membership is
preserved both ways — never a replacement), deduplicated and sorted; and on
the concrete disjoint instance local `{a}`, remote `{b}` the result is
`[a, b]`. -/
theorem tags_merge_is_union (a b : SyncSnapshot) (track : JStr) :
    (∀ t, t ∈ (mergeRemote a b).tagsByTrack track ↔
      (t ∈ a.tagsByTrack track ∨ t ∈ b.tagsByTrack track)) ∧
    ((mergeRemote a b).tagsByTrack track).Sorted (· ≤ ·) ∧
    ((mergeRemote a b).tagsByTrack track).Nodup ∧
    (mergeRemote ⟨fun _ => [], fun _ => [jstr "a"]⟩
        ⟨fun _ => [], fun _ => [jstr "b"]⟩).tagsByTrack (jstr "t1") =
      [jstr "a", jstr "b"] := by
  refine ⟨?_, ?_, ?_, ?_⟩
  · intro t
    simp [mergeRemote, mergeTrackTags, mem_canonicalTags, List.mem_append]
  · exact sorted_canonicalTags _
  · exact nodup_canonicalTags _
  · decide

/-! ### C4 — merge idempotence -/

/-- **C4.**  Applying the union merge with the same remote snapshot twice
yields the same state as applying it once, for every local state and every
remote snapshot (all note/tag combinations). -/
theorem merge_idempotent (a b : SyncSnapshot) :
    mergeRemote (mergeRemote a b) b = mergeRemote a b := by
  unfold mergeRemote
  congr 1
  · funext track
    exact mergeNotes_idem _ _
  · funext track
    exact mergeTrackTags_idem _ _

/-! ### Debounce lemmas (C7) -/

/-- Invariant of the edit loop: while each next edit lands inside the
running quiet period, no call fires and the pending payload tracks the
latest edit. -/
theorem runEdits_pending_inv :
    ∀ (rest : List (Nat × List JStr)) (t : Nat) (tags : List JStr)
      (calls : List (Nat × List JStr)), gapsOk t rest = true →
      runEdits { pending := some (t + QUIET_PERIOD_MS, tags), calls := calls } rest =
        { pending := some ((lastEdit (t, tags) rest).1 + QUIET_PERIOD_MS,
            (lastEdit (t, tags) rest).2),
          calls := calls } := by
  intro rest
  induction rest with
  | nil => intro t tags calls _; rfl
  | cons e rest' ih =>
    intro t tags calls h
    simp only [gapsOk, Bool.and_eq_true, decide_eq_true_eq] at h
    obtain ⟨⟨h1, h2⟩, h3⟩ := h
    have hrec : recordEdit { pending := some (t + QUIET_PERIOD_MS, tags), calls := calls }
        e.1 e.2 = { pending := some (e.1 + QUIET_PERIOD_MS, e.2), calls := calls } := by
      unfold recordEdit advanceTo
      simp [Nat.not_le.mpr h2]
    calc runEdits { pending := some (t + QUIET_PERIOD_MS, tags), calls := calls } (e :: rest')
        = runEdits (recordEdit { pending := some (t + QUIET_PERIOD_MS, tags), calls := calls }
            e.1 e.2) rest' := rfl
      _ = runEdits { pending := some (e.1 + QUIET_PERIOD_MS, e.2), calls := calls } rest' := by
            rw [hrec]
      _ = { pending := some ((lastEdit (e.1, e.2) rest').1 + QUIET_PERIOD_MS,
              (lastEdit (e.1, e.2) rest').2), calls := calls } := ih e.1 e.2 calls h3
      _ = { pending := some ((lastEdit (t, tags) (e :: rest')).1 + QUIET_PERIOD_MS,
              (lastEdit (t, tags) (e :: rest')).2), calls := calls } := rfl

/-! ### C7 — debounce coalescing -/

/-- **C7.**  For `N ≥ 1` tag edits to one track in which each consecutive
pair is separated by less than the 350 ms quiet period, exactly one
outbound upsert call fires, it fires when the quiet period after the last
edit elapses, and it carries the full tag set of the final edit. -/
theorem debounce_coalesces (t0 : Nat) (g0 : List JStr) (rest : List (Nat × List JStr))
    (h : gapsOk t0 rest = true) :
    settle (runEdits { pending := none, calls := [] } ((t0, g0) :: rest)) =
      { pending := none,
        calls := [((lastEdit (t0, g0) rest).1 + QUIET_PERIOD_MS,
          (lastEdit (t0, g0) rest).2)] } := by
  have h0 : recordEdit { pending := none, calls := [] } t0 g0 =
      { pending := some (t0 + QUIET_PERIOD_MS, g0), calls := [] } := rfl
  calc settle (runEdits { pending := none, calls := [] } ((t0, g0) :: rest))
      = settle (runEdits { pending := some (t0 + QUIET_PERIOD_MS, g0), calls := [] } rest) := by
        rw [show runEdits { pending := none, calls := [] } ((t0, g0) :: rest) =
          runEdits (recordEdit { pending := none, calls := [] } t0 g0) rest from rfl, h0]
    _ = settle { pending := some ((lastEdit (t0, g0) rest).1 + QUIET_PERIOD_MS,
          (lastEdit (t0, g0) rest).2), calls := [] } := by
        rw [runEdits_pending_inv rest t0 g0 [] h]
    _ = { pending := none,
          calls := [((lastEdit (t0, g0) rest).1 + QUIET_PERIOD_MS,
            (lastEdit (t0, g0) rest).2)] } := by
        unfold settle firePending
        simp

/-- Witness for C7: edits `rock` at 0 ms and `jazz` at 100 ms yield one
call at 450 ms carrying `[jazz]`. -/
theorem debounce_coalesces_witness :
    settle (runEdits { pending := none, calls := [] }
        [(0, [jstr "rock"]), (100, [jstr "jazz"])]) =
      { pending := none, calls := [(450, [jstr "jazz"])] } := by
  have h := debounce_coalesces 0 [jstr "rock"] [(100, [jstr "jazz"])] (by decide)
  rw [h]
  decide

/-! ### C8 — time-bounded undo -/

/-- Equation for `undo` when no live entry matches. -/
theorem undo_eq_of_find_none {α : Type} (s : UndoState α) (now : Nat) (id : JStr)
    (h : (expireDue s now).entries.find? (fun e => e.1 == id) = none) :
    undo s now id = (expireDue s now, none) := by
  unfold undo
  rw [h]

/-- **C8.**  After `scheduleUndo(id, meta)` at time `t` (from a state with
no live entry and no fired expiry for `id`), an `undo(id)` before the
10-minute deadline returns `meta`; a second `undo(id)` is an idempotent
no-op (same state, `none`); and the expiry callback for `id` can never fire
afterwards, at any time. -/
theorem undo_within_window {α : Type} (s0 : UndoState α) (t tu : Nat) (id : JStr) (meta : α)
    (hclean : ∀ e ∈ s0.entries, e.1 ≠ id)
    (hexp0 : id ∉ s0.expiredIds)
    (hwin : tu < t + UNDO_TIMEOUT_MS) :
    (undo (scheduleUndo s0 t id meta) tu id).2 = some meta ∧
    undo (undo (scheduleUndo s0 t id meta) tu id).1 tu id =
      ((undo (scheduleUndo s0 t id meta) tu id).1, none) ∧
    ∀ tl, id ∉ (expireDue (undo (scheduleUndo s0 t id meta) tu id).1 tl).expiredIds := by
  set s1 := scheduleUndo s0 t id meta with hs1def
  have htail : ∀ e ∈ (expireDue s0 t).entries.filter (fun e => e.1 != id), e.1 ≠ id := by
    intro e he
    have hb := (List.mem_filter.mp he).2
    simpa [bne_iff_ne] using hb
  have hs1entries : s1.entries = (id, meta, t + UNDO_TIMEOUT_MS) ::
      (expireDue s0 t).entries.filter (fun e => e.1 != id) := rfl
  have hexp1 : id ∉ s1.expiredIds := by
    show id ∉ (expireDue s0 t).expiredIds
    unfold expireDue
    simp only [List.mem_append, List.mem_map, List.mem_filter]
    rintro (h | ⟨e, ⟨he, _⟩, heq⟩)
    · exact hexp0 h
    · exact hclean e he heq
  have hfe : (expireDue s1 tu).entries = (id, meta, t + UNDO_TIMEOUT_MS) ::
      ((expireDue s0 t).entries.filter (fun e => e.1 != id)).filter
        (fun e => decide (tu < e.2.2)) := by
    show s1.entries.filter (fun e => decide (tu < e.2.2)) = _
    rw [hs1entries, List.filter_cons]
    simp [hwin]
  have hfex : (expireDue s1 tu).expiredIds = s1.expiredIds ++
      (((expireDue s0 t).entries.filter (fun e => e.1 != id)).filter
        (fun e => decide (e.2.2 ≤ tu))).map (fun e => e.1) := by
    show s1.expiredIds ++ (s1.entries.filter (fun e => decide (e.2.2 ≤ tu))).map (fun e => e.1) = _
    rw [hs1entries, List.filter_cons]
    simp [Nat.not_le.mpr hwin]
  have hexpU : id ∉ (expireDue s1 tu).expiredIds := by
    rw [hfex]
    simp only [List.mem_append, List.mem_map]
    rintro (h | ⟨e, he, heq⟩)
    · exact hexp1 h
    · exact htail e (List.mem_of_mem_filter he) heq
  have hfind : (expireDue s1 tu).entries.find? (fun e => e.1 == id) =
      some (id, meta, t + UNDO_TIMEOUT_MS) := by
    rw [hfe]
    simp [List.find?_cons]
  have hu1 : undo s1 tu id =
      ({ expireDue s1 tu with entries :=
          (expireDue s1 tu).entries.filter (fun e => e.1 != id) }, some meta) := by
    unfold undo
    rw [hfind]
  have hr1entries_ne : ∀ e ∈ (undo s1 tu id).1.entries, e.1 ≠ id := by
    rw [hu1]
    intro e he
    have hb := (List.mem_filter.mp he).2
    simpa [bne_iff_ne] using hb
  have hr1entries_live : ∀ e ∈ (undo s1 tu id).1.entries, tu < e.2.2 := by
    rw [hu1]
    intro e he
    have he2 : e ∈ (expireDue s1 tu).entries := List.mem_of_mem_filter he
    have hb := (List.mem_filter.mp (show e ∈ s1.entries.filter
      (fun e => decide (tu < e.2.2)) from he2)).2
    simpa using hb
  have hr1exp : id ∉ (undo s1 tu id).1.expiredIds := by
    rw [hu1]
    exact hexpU
  have hstable : expireDue (undo s1 tu id).1 tu = (undo s1 tu id).1 := by
    unfold expireDue
    have hf : (undo s1 tu id).1.entries.filter (fun e => decide (tu < e.2.2)) =
        (undo s1 tu id).1.entries :=
      List.filter_eq_self.mpr (fun e he => by simp [hr1entries_live e he])
    have hd : (undo s1 tu id).1.entries.filter (fun e => decide (e.2.2 ≤ tu)) = [] := by
      rw [List.filter_eq_nil_iff]
      intro e he
      simp [Nat.not_le.mpr (hr1entries_live e he)]
    rw [hf, hd]
    simp
  have hfind2 : (expireDue (undo s1 tu id).1 tu).entries.find? (fun e => e.1 == id) = none := by
    rw [hstable]
    apply List.find?_eq_none.mpr
    intro e he
    simp [hr1entries_ne e he]
  have hu2 : undo (undo s1 tu id).1 tu id = ((undo s1 tu id).1, none) := by
    rw [undo_eq_of_find_none _ _ _ hfind2, hstable]
  have hc3 : ∀ tl, id ∉ (expireDue (undo s1 tu id).1 tl).expiredIds := by
    intro tl
    unfold expireDue
    simp only [List.mem_append, List.mem_map]
    rintro (h | ⟨e, he, heq⟩)
    · exact hr1exp h
    · exact hr1entries_ne e (List.mem_of_mem_filter he) heq
  exact ⟨by rw [hu1], hu2, hc3⟩

/-- Witness for C8: schedule `d1` at 0 ms, undo it at 1000 ms — the meta
comes back. -/
theorem undo_within_window_witness :
    (undo (scheduleUndo ({ entries := [], expiredIds := [] } : UndoState JStr)
        0 (jstr "d1") (jstr "m")) 1000 (jstr "d1")).2 = some (jstr "m") :=
  (undo_within_window { entries := [], expiredIds := [] } 0 1000 (jstr "d1") (jstr "m")
    (by simp) (by simp) (by decide)).1

/-! ### C9 — recent playlists invariant -/

/-- A created candidate never carries the demo provider. -/
theorem createRecentCandidate_not_demo {meta : ImportMeta} {title : JStr}
    {cand : RecentEntry} (h : createRecentCandidate meta title = some cand) :
    cand.provider ≠ READ_ONLY_PROVIDER := by
  unfold createRecentCandidate at h
  rcases hmp : meta.provider with _ | p <;> rcases hmq : meta.playlistId with _ | pid <;>
    rw [hmp, hmq] at h <;> simp at h
  obtain ⟨hne, hcandeq⟩ := h
  rw [← hcandeq]
  exact hne

/-- **C9.**  In every reachable persisted `recentPlaylists` list: no entry
has the read-only/demo provider, there are at most 8 entries, and no two
entries share the same `(provider, playlistId)` key. -/
theorem recents_invariant (l : List RecentEntry) (h : ReachableRecents l) :
    (∀ e ∈ l, e.provider ≠ READ_ONLY_PROVIDER) ∧
    l.length ≤ MAX_RECENT_PLAYLISTS ∧
    l.Pairwise (fun a b => a.provider ≠ b.provider ∨ a.playlistId ≠ b.playlistId) := by
  induction h with
  | init => simp
  | @upsert l' meta title cand _ hcand ih =>
    obtain ⟨ihdemo, _, ihpair⟩ := ih
    refine ⟨?_, ?_, ?_⟩
    · intro e he
      rcases List.mem_cons.mp (List.take_subset _ _ he) with h | h
      · subst h; exact createRecentCandidate_not_demo hcand
      · exact ihdemo e (List.mem_of_mem_filter h)
    · exact List.length_take_le _ _
    · refine List.Pairwise.sublist (List.take_sublist _ _) ?_
      refine List.pairwise_cons.mpr ⟨?_, ihpair.filter _⟩
      intro e he
      have hb := (List.mem_filter.mp he).2
      have hkey : sameRecentKey e cand = false := by
        rwa [Bool.not_eq_true'] at hb
      unfold sameRecentKey at hkey
      rcases Bool.and_eq_false_iff.mp hkey with h | h
      · exact Or.inl fun habs => by simp [habs] at h
      · exact Or.inr fun habs => by simp [habs] at h
  | @remove l' provider playlistId _ ih =>
    obtain ⟨ihdemo, ihlen, ihpair⟩ := ih
    exact ⟨fun e he => ihdemo e (List.mem_of_mem_filter he),
      le_trans (List.length_filter_le _ _) ihlen, ihpair.filter _⟩

/-- Witness for C9: the list after one spotify upsert from the empty list
satisfies the invariant. -/
theorem recents_invariant_witness :
    (upsertRecent [] sampleRecentEntry).length ≤ MAX_RECENT_PLAYLISTS :=
  (recents_invariant _ (ReachableRecents.upsert ReachableRecents.init
    (show createRecentCandidate sampleRecentMeta (jstr "t") = some sampleRecentEntry
      by decide))).2.1

/-! ### C10 — `hasDemoBeenViewed` never throws and reads the flag -/

/-- **C10.**  `hasDemoBeenViewed` is total (the `catch` swallows storage
errors): it returns `true` exactly when `window` is defined, storage is
available and does not throw, and the value under `sta:demo-viewed` is the
string `"true"`; in every other case — storage absent, falsy, throwing, or
holding any other value — it returns `false`. -/
theorem hasDemoBeenViewed_spec (env : BrowserEnv) :
    (hasDemoBeenViewed env = true ↔
      (env.windowDefined = true ∧ env.storageThrows = false ∧
        env.localStorageTruthy = true ∧
        env.store DEMO_VIEWED_KEY = some (jstr "true"))) ∧
    (env.storageThrows = true → env.windowDefined = true →
      hasDemoBeenViewed env = false) := by
  unfold hasDemoBeenViewed hasDemoBeenViewedTry
  rcases env with ⟨wd, ls, st, store⟩
  cases wd <;> cases st <;> cases ls <;> simp [beq_iff_eq]

end PlaylistNotes
